import Mathlib

/-!
Verification of the `kube_agent` Python package (feiskyer/kube-agent).

Shallow embedding, in Lean 4, of the string-processing and control logic of
`agent.py`, `shell.py` and `cli.py`, together with theorems settling the
specification claims about them.

Strings are modelled as `List Char`; the Python string operations used by the
code (`strip`, `rstrip`, slicing, `upper`, `replace`, `join`, `startswith`,
`re.findall`) are embedded as executable functions on `List Char` below, each
next to the source construct it translates.
-/

namespace KubeAgent

/-! Basic Python string operations. -/

/-- Character constant: the single quote `'` (codepoint 39). -/
def squote : Char := Char.ofNat 39

/-- Character constant: the double quote `"` (codepoint 34). -/
def dquote : Char := Char.ofNat 34

/-- ASCII whitespace, as stripped by Python `str.strip()` (space, tab,
newline, carriage return, vertical tab, form feed). -/
def pyIsSpace (c : Char) : Bool :=
  c = ' ' ∨ c = '\t' ∨ c = '\n' ∨ c = '\r' ∨ c = Char.ofNat 11 ∨ c = Char.ofNat 12

/-- Remove the longest suffix of characters satisfying `p`
(the core of Python `rstrip`). -/
def rtrimWhile (p : Char → Bool) (l : List Char) : List Char :=
  (l.reverse.dropWhile p).reverse

/-- Python `s.rstrip(c)` for a single-character argument: drop all trailing
occurrences of `c`. -/
def rstripChar (c : Char) (l : List Char) : List Char :=
  rtrimWhile (fun d => d = c) l

/-- Python `s.strip()`: drop leading and trailing whitespace. -/
def pyStrip (l : List Char) : List Char :=
  rtrimWhile pyIsSpace (l.dropWhile pyIsSpace)

/-- Python `s[-n:]`: the final `n` characters (the whole string when it is
shorter than `n`). -/
def lastN (n : Nat) (l : List Char) : List Char :=
  l.drop (l.length - n)

/-- Python `s.upper()` on the ASCII range. -/
def pyUpper (l : List Char) : List Char :=
  l.map Char.toUpper

/-! Embedding of `KubeCopilotAgent.termination_msg` (`agent.py` lines 60-70). -/

/-- Argument of `KubeCopilotAgent.termination_msg`: the Python value `x` is
either not a dict, or a dict whose `"content"` entry is absent or a string
(string-valued content is the case the claims exercise; an absent entry and
any falsy non-string value both make `x.get("content", "")` falsy, which
`dict none` models). -/
inductive PyMessage where
  | notDict : PyMessage
  | dict : Option (List Char) → PyMessage

/-- Suffix check at the end of `KubeCopilotAgent.termination_msg`
(`agent.py` lines 67-70):
`content = str(x.get("content", "")).strip()` then
`content = content.rstrip(".").rstrip("*").strip()` then
`return "TERMINATE" == content[-9:].upper()`. -/
def terminateSuffixCheck (c : List Char) : Bool :=
  let c1 := pyStrip c
  let c2 := pyStrip (rstripChar '*' (rstripChar '.' c1))
  pyUpper (lastN 9 c2) = "TERMINATE".data

/-- Embedding of `KubeCopilotAgent.termination_msg` (`agent.py` lines 60-70):
returns `False` for a non-dict, for a dict with no (or falsy) `"content"`,
and otherwise applies the TERMINATE suffix check. -/
def termination_msg : PyMessage → Bool
  | .notDict => false
  | .dict none => false
  | .dict (some c) => if c = [] then false else terminateSuffixCheck c

/-- Detection procedure as the specification words it (spec §4.4 / claim
C1): "trim trailing whitespace, then strip trailing `.` and `*` characters,
then case-insensitive-compare the final 9 characters to `TERMINATE`".
Stated only for comparison against `termination_msg`. -/
def claimedDetector (c : List Char) : Bool :=
  let c1 := rtrimWhile pyIsSpace c
  let c2 := rtrimWhile (fun d => d = '.' ∨ d = '*') c1
  pyUpper (lastN 9 c2) = "TERMINATE".data

/-! Embedding of `shell.py`: `CommandExecutor` and `ScriptExecutor`. -/

/-- Python `Union[str, List[str]]` argument (`args` of `CommandExecutor.run`,
`commands` of `CommandExecutor.exec`, `code` of `ScriptExecutor.run`). -/
inductive PyStrOrList where
  | str : List Char → PyStrOrList
  | list : List (List Char) → PyStrOrList

/-- Normalization `if isinstance(args, str): args = [args]`. -/
def PyStrOrList.toList : PyStrOrList → List (List Char)
  | .str s => [s]
  | .list l => l

/-- Constructor-set fields of `CommandExecutor` (`shell.py` lines 10-16).
The tiktoken encoding is kept abstract: a token-count function
`List Char → Nat` is passed to the functions that use it. -/
structure CommandExecutor where
  command : List Char
  max_tokens : Nat := 3000
  strip_newlines : Bool := false
  return_err_output : Bool := false

/-- Command assembly in `CommandExecutor.run` (`shell.py` lines 20-24):
`commands = ";".join(args)`, then prepend `f"{self.command} "` unless
`commands.startswith(self.command)`. -/
def assembleCommands (command : List Char) (args : PyStrOrList) : List Char :=
  let commands := List.intercalate [';'] args.toList
  if command.isPrefixOf commands then commands else command ++ ' ' :: commands

/-- Outcome of the `subprocess.run(...)` call in `CommandExecutor.exec`
(`shell.py` lines 37-49): either success with captured combined
stdout/stderr, or one of the two caught exceptions
(`CalledProcessError` / `TimeoutExpired`), each carrying the captured
partial output (`error.stdout.decode()`) and its stringified description
(`str(error)`). -/
inductive ProcOutcome where
  | success : List Char → ProcOutcome
  | calledProcessError : List Char → List Char → ProcOutcome
  | timeoutExpired : List Char → List Char → ProcOutcome

/-- Whether the subprocess call failed (raised one of the caught exceptions). -/
def ProcOutcome.isFailure : ProcOutcome → Bool
  | .success _ => false
  | .calledProcessError _ _ => true
  | .timeoutExpired _ _ => true

/-- Embedding of `CommandExecutor.exec` (`shell.py` lines 32-53): on
success, strip the output iff `strip_newlines`; on a caught failure, return
the partial output when `return_err_output` else the stringified error.
Total — every outcome is converted to a string result. -/
def CommandExecutor.execModel (ce : CommandExecutor) (outcome : ProcOutcome) : List Char :=
  match outcome with
  | .success out => if ce.strip_newlines then pyStrip out else out
  | .calledProcessError partial_out err => if ce.return_err_output then partial_out else err
  | .timeoutExpired partial_out err => if ce.return_err_output then partial_out else err

/-- Truncation step `result[:len(result) // 2]` — the first half of the
string. -/
def firstHalf (l : List Char) : List Char :=
  l.take (l.length / 2)

/-- Token-bounding loop of `CommandExecutor.run` (`shell.py` lines 26-30):
`while len(tokens) > self.max_tokens: result = result[:len(result) // 2]`,
re-measuring after each halving. Embedded with explicit fuel (`none` when
the fuel runs out), since the Python loop itself diverges for a
(non-tiktoken) tokenizer assigning more than `max_tokens` tokens to the
empty string. -/
def truncateLoop (enc : List Char → Nat) (maxTokens : Nat) :
    Nat → List Char → Option (List Char)
  | 0, _ => none
  | fuel + 1, result =>
    if enc result ≤ maxTokens then some result
    else truncateLoop enc maxTokens fuel (firstHalf result)

/-- Embedding of `CommandExecutor.run` (`shell.py` lines 18-30): assemble
the command line, execute it (the subprocess behaviour is a parameter
`outcome : List Char → ProcOutcome` mapping the executed line to its
result), then run the token-bounding loop. Fuel `length + 1` suffices
whenever the tokenizer gives the empty string no tokens
(`run_tokenBounding` below). -/
def CommandExecutor.runModel (ce : CommandExecutor) (enc : List Char → Nat)
    (outcome : List Char → ProcOutcome) (args : PyStrOrList) : Option (List Char) :=
  let result := ce.execModel (outcome (assembleCommands ce.command args))
  truncateLoop enc ce.max_tokens (result.length + 1) result

/-- Base command of a `ScriptExecutor` (`shell.py` lines 58-61): a
`CommandExecutor` constructed with command `f"{command} -c"`. -/
def scriptCommand (interpreter : List Char) : List Char :=
  interpreter ++ " -c".data

/-- Quote escaping `code.replace("'", "'\"'\"'")` in `ScriptExecutor.run`
(`shell.py` line 66): each single quote becomes quote, double quote, quote,
double quote, quote. -/
def escapeSingleQuotes (code : List Char) : List Char :=
  code.flatMap fun c =>
    if c = squote then [squote, dquote, squote, dquote, squote] else [c]

/-- Script body of `ScriptExecutor.run`: a list of lines is first joined
with newlines (`code = '\n'.join(code)`, `shell.py` line 65). -/
def scriptBody : PyStrOrList → List Char
  | .str s => s
  | .list l => List.intercalate ['\n'] l

/-- Single string `ScriptExecutor.run` hands to `CommandExecutor.run`:
`f"'{code}'"` with `code` the escaped body (`shell.py` line 67). -/
def scriptQuotedArg (code : PyStrOrList) : List Char :=
  squote :: escapeSingleQuotes (scriptBody code) ++ [squote]

/-- Command line a `ScriptExecutor` with the given interpreter executes for
a script: `CommandExecutor.run`'s assembly applied to the quoted escaped
body under base command `interpreter ++ " -c"`. -/
def scriptExecutedLine (interpreter : List Char) (code : PyStrOrList) : List Char :=
  assembleCommands (scriptCommand interpreter) (.str (scriptQuotedArg code))

/-! Embedding of manifest extraction in `generate` (`cli.py` lines 131-135). -/

/-- Leftmost-occurrence search: `upToFirst pat s` returns
`some (before, after)` where `before` is the part of `s` strictly before the
first occurrence of `pat` and `after` the part strictly after it, or `none`
when `pat` does not occur in `s`. -/
def upToFirst (pat : List Char) : List Char → Option (List Char × List Char)
  | [] => if pat.isPrefixOf ([] : List Char) then some ([], []) else none
  | c :: rest =>
    if pat.isPrefixOf (c :: rest) then some ([], (c :: rest).drop pat.length)
    else (upToFirst pat rest).map fun p => (c :: p.1, p.2)

/-- Closing-fence pattern of the regex: three backticks. -/
def closeFence : List Char := "```".data

/-- Opening-fence pattern of the regex: three backticks followed by `yaml`. -/
def openFence : List Char := "```yaml".data

/-- Embedding of `re.findall(r'```yaml(.*?)```', result, re.DOTALL)` from
`generate` (`cli.py` line 132), with explicit fuel (one unit per match;
fuel `s.length` is enough: `findBlocksFuel_stable` below). The regex scans
left to right: the earliest occurrence of the opening fence starts a match,
the lazy `(.*?)` captures up to the first closing fence after it, and
scanning resumes after the closing fence. When an opening fence has no
closing fence after it, no further match exists (any later opening fence
contains a closing-fence occurrence), so the scan stops. -/
def findBlocksFuel : Nat → List Char → List (List Char)
  | 0, _ => []
  | fuel + 1, s =>
    match upToFirst openFence s with
    | none => []
    | some (_, afterOpen) =>
      match upToFirst closeFence afterOpen with
      | none => []
      | some (body, afterClose) => body :: findBlocksFuel fuel afterClose

/-- Captured bodies `yaml_blocks = re.findall(r'```yaml(.*?)```', result,
re.DOTALL)` (`cli.py` line 132). -/
def findYamlBlocks (s : List Char) : List (List Char) :=
  findBlocksFuel s.length s

/-- Joined manifest
`manifests = '\n---\n'.join([b.strip() for b in yaml_blocks]) + '\n'`
(`cli.py` line 133). -/
def joinManifests (result : List Char) : List Char :=
  List.intercalate "\n---\n".data ((findYamlBlocks result).map pyStrip) ++ ['\n']

/-! Embedding of `get_llm` (`agent.py` lines 13-37). -/

/-- Which completion-client class `get_llm` constructs. -/
inductive LLMClient where
  | azureOpenAI : LLMClient
  | openAI : LLMClient

/-- Client selection in `get_llm` (`agent.py` lines 13-37):
`if api_type == "azure" or os.getenv("OPENAI_API_TYPE") == "azure" or
os.getenv("AZURE_OPENAI_API_KEY") != "":` return the Azure client, else the
OpenAI client. `os.getenv` yields `none` for an unset variable; Python
`None == "azure"` is false and `None != ""` is true, which the `Option`
comparisons below reproduce. -/
def get_llm (api_type : List Char)
    (env_OPENAI_API_TYPE env_AZURE_OPENAI_API_KEY : Option (List Char)) : LLMClient :=
  if api_type = "azure".data ∨ env_OPENAI_API_TYPE = some "azure".data ∨
      env_AZURE_OPENAI_API_KEY ≠ some [] then
    .azureOpenAI
  else
    .openAI

/-! Model of the orchestration loop (spec §4.3). -/

/-- Modelled from the spec: the turn-routing orchestration loop (spec §4.3)
is implemented by the external `autogen` framework (`Swarm`, invoked by
`KubeCopilotAgent.run` in `agent.py` lines 273-291); its loop body is not
part of this repository's sources. Following the spec's words: in each
round the active agent produces a response (modelled as a function from the
round index to the response text, the routing between roles being folded
into that function), the response is appended to the transcript, the loop
stops early when the termination detector fires on the response, and
otherwise stops once the round count reaches the configured ceiling,
returning the accumulated transcript. -/
def orchestrate (isTerm : List Char → Bool) (respond : Nat → List Char) :
    Nat → Nat → List (List Char)
  | 0, _ => []
  | remaining + 1, round =>
    let msg := respond round
    if isTerm msg then [msg]
    else msg :: orchestrate isTerm respond remaining (round + 1)

/-- Modelled from the spec: a full orchestration run's transcript — the
round loop started at round 0 with the configured round ceiling
(spec §4.3, steps 4 and 5). -/
def runTranscript (isTerm : List Char → Bool) (respond : Nat → List Char)
    (maxRounds : Nat) : List (List Char) :=
  orchestrate isTerm respond maxRounds 0

end KubeAgent

namespace KubeAgent

/-! Helper lemmas. -/

theorem upToFirst_length_lt (pat : List Char) (hpat : pat ≠ []) :
    ∀ (s a b : List Char), upToFirst pat s = some (a, b) → b.length < s.length := by
  intro s
  induction s with
  | nil =>
    intro a b h
    cases pat with
    | nil => exact absurd rfl hpat
    | cons p ps => simp [upToFirst, List.isPrefixOf] at h
  | cons c rest ih =>
    intro a b h
    rw [upToFirst] at h
    by_cases hp : pat.isPrefixOf (c :: rest) = true
    · rw [if_pos hp] at h
      have hb : b = (c :: rest).drop pat.length := by
        injection h with h1; exact (congrArg Prod.snd h1).symm
      have hpl : 0 < pat.length := List.length_pos.mpr hpat
      subst hb
      simp only [List.length_drop, List.length_cons]
      omega
    · rw [if_neg hp] at h
      obtain ⟨p, hp1, hp2⟩ := Option.map_eq_some'.mp h
      have hb : b = p.2 := (congrArg Prod.snd hp2).symm
      subst hb
      exact Nat.lt_trans (ih p.1 p.2 (by rw [hp1])) (by simp)

theorem findBlocksFuel_stable :
    ∀ (n : Nat) (s : List Char), s.length ≤ n → ∀ (f1 f2 : Nat),
      s.length ≤ f1 → s.length ≤ f2 → findBlocksFuel f1 s = findBlocksFuel f2 s := by
  intro n
  induction n using Nat.strong_induction_on with
  | _ n ih =>
    intro s hsn f1 f2 h1 h2
    match f1, f2 with
    | 0, f2 =>
      have hs : s = [] := List.length_eq_zero.mp (Nat.le_zero.mp h1)
      subst hs
      match f2 with
      | 0 => rfl
      | k + 1 => simp [findBlocksFuel, upToFirst, openFence, List.isPrefixOf]
    | f1 + 1, 0 =>
      have hs : s = [] := List.length_eq_zero.mp (Nat.le_zero.mp h2)
      subst hs
      simp [findBlocksFuel, upToFirst, openFence, List.isPrefixOf]
    | f1 + 1, f2 + 1 =>
      simp only [findBlocksFuel]
      cases hopen : upToFirst openFence s with
      | none => rfl
      | some p1 =>
        obtain ⟨pre, afterOpen⟩ := p1
        cases hclose : upToFirst closeFence afterOpen with
        | none => simp [hclose]
        | some p2 =>
          obtain ⟨body, afterClose⟩ := p2
          have hlt1 : afterOpen.length < s.length :=
            upToFirst_length_lt openFence (by decide) s pre afterOpen hopen
          have hlt2 : afterClose.length < afterOpen.length :=
            upToFirst_length_lt closeFence (by decide) afterOpen body afterClose hclose
          have hrec := ih afterClose.length (by omega) afterClose le_rfl f1 f2
            (by omega) (by omega)
          simp [hclose, hrec]

theorem firstHalf_prefixes (l : List Char) : firstHalf l <+: l :=
  List.take_prefix _ l

theorem firstHalf_length (l : List Char) : (firstHalf l).length = l.length / 2 := by
  simp [firstHalf, Nat.min_eq_left (Nat.div_le_self _ _)]

theorem truncateLoop_fuel_mono (enc : List Char → Nat) (m : Nat) :
    ∀ (f f' : Nat) (s r : List Char), truncateLoop enc m f s = some r → f ≤ f' →
      truncateLoop enc m f' s = some r := by
  intro f
  induction f with
  | zero => intro f' s r h _; simp [truncateLoop] at h
  | succ n ih =>
    intro f' s r h hle
    obtain ⟨k, rfl⟩ : ∃ k, f' = k + 1 := ⟨f' - 1, by omega⟩
    simp only [truncateLoop] at h ⊢
    by_cases hc : enc s ≤ m
    · rw [if_pos hc] at h ⊢; exact h
    · rw [if_neg hc] at h ⊢; exact ih k _ _ h (by omega)

theorem truncateLoop_tokenBound (enc : List Char → Nat) (m : Nat) :
    ∀ (f : Nat) (s r : List Char), truncateLoop enc m f s = some r → enc r ≤ m := by
  intro f
  induction f with
  | zero => intro s r h; simp [truncateLoop] at h
  | succ n ih =>
    intro s r h
    simp only [truncateLoop] at h
    by_cases hc : enc s ≤ m
    · rw [if_pos hc] at h; cases h; exact hc
    · rw [if_neg hc] at h; exact ih _ _ h

theorem truncateLoop_prefixes (enc : List Char → Nat) (m : Nat) :
    ∀ (f : Nat) (s r : List Char), truncateLoop enc m f s = some r → r <+: s := by
  intro f
  induction f with
  | zero => intro s r h; simp [truncateLoop] at h
  | succ n ih =>
    intro s r h
    simp only [truncateLoop] at h
    by_cases hc : enc s ≤ m
    · rw [if_pos hc] at h; cases h; exact List.prefix_refl _
    · rw [if_neg hc] at h
      exact (ih _ _ h).trans (firstHalf_prefixes s)

theorem truncateLoop_total (enc : List Char → Nat) (m : Nat) (hEmpty : enc [] = 0)
    (s : List Char) : ∃ r, truncateLoop enc m (s.length + 1) s = some r := by
  suffices h : ∀ (n : Nat) (s : List Char), s.length ≤ n →
      ∃ r, truncateLoop enc m (s.length + 1) s = some r from h s.length s le_rfl
  intro n
  induction n with
  | zero =>
    intro s hs
    have hnil : s = [] := List.length_eq_zero.mp (Nat.le_zero.mp hs)
    subst hnil
    exact ⟨[], by simp [truncateLoop, hEmpty]⟩
  | succ n ih =>
    intro s hs
    by_cases hc : enc s ≤ m
    · exact ⟨s, by simp [truncateLoop, hc]⟩
    · have hs0 : s ≠ [] := by
        intro hnil; subst hnil; exact hc (by simp [hEmpty])
      have hlen : 0 < s.length := List.length_pos.mpr hs0
      have hhalf := firstHalf_length s
      obtain ⟨r, hr⟩ := ih (firstHalf s) (by omega)
      refine ⟨r, ?_⟩
      simp only [truncateLoop, if_neg hc]
      exact truncateLoop_fuel_mono enc m _ _ _ _ hr (by omega)

/-! Claim theorems. -/

/-- C1 (counterexample): the claim's transformation ("trim trailing
whitespace, then strip trailing `.` and `*`") disagrees with the code on
`"TERMINATE ."`: the code's extra `strip()` after `rstrip(".").rstrip("*")`
removes the space exposed by dropping the dot, so `termination_msg` returns
`true`, while the final 9 characters after the claim's transformation are
`"ERMINATE "`, so the claimed predicate is `false` — refuting the stated
"if and only if". -/
theorem termination_msg_claim_counterexample :
    termination_msg (.dict (some "TERMINATE .".data)) = true ∧
    claimedDetector "TERMINATE .".data = false := by
  constructor <;> decide

/-- C1 (amended): `termination_msg` trims whitespace from both ends, then
strips trailing `.` characters, then trailing `*` characters, then trims
whitespace again, and returns true iff the final 9 characters of the result
case-insensitively equal `TERMINATE` (and the content is non-empty); in
particular it is true on `"... TERMINATE"`, `"...terminate."`,
`"...Terminate**"` and false on `"...TERMINATED"`, `"TERMINATE this"`. -/
theorem termination_msg_spec :
    termination_msg (.dict (some "... TERMINATE".data)) = true ∧
    termination_msg (.dict (some "...terminate.".data)) = true ∧
    termination_msg (.dict (some "...Terminate**".data)) = true ∧
    termination_msg (.dict (some "...TERMINATED".data)) = false ∧
    termination_msg (.dict (some "TERMINATE this".data)) = false ∧
    ∀ c : List Char,
      termination_msg (.dict (some c)) = true ↔
        c ≠ [] ∧
        pyUpper (lastN 9 (pyStrip (rstripChar '*' (rstripChar '.' (pyStrip c))))) =
          "TERMINATE".data := by
  refine ⟨by decide, by decide, by decide, by decide, by decide, ?_⟩
  intro c
  by_cases hc : c = []
  · subst hc
    simp [termination_msg]
  · simp [termination_msg, terminateSuffixCheck, hc]

/-- C9: `termination_msg` returns false for every non-dict input, for a dict
with missing (or falsy) content, and for a dict whose content is the empty
string; conversely any input classified as a termination message is a dict
with non-empty content. -/
theorem termination_msg_nonmsg :
    termination_msg .notDict = false ∧
    termination_msg (.dict none) = false ∧
    termination_msg (.dict (some [])) = false ∧
    ∀ m : PyMessage, termination_msg m = true →
      ∃ c : List Char, m = .dict (some c) ∧ c ≠ [] := by
  refine ⟨rfl, rfl, by decide, ?_⟩
  intro m hm
  match m with
  | .notDict => simp [termination_msg] at hm
  | .dict none => simp [termination_msg] at hm
  | .dict (some c) =>
    refine ⟨c, rfl, ?_⟩
    intro hc
    subst hc
    simp [termination_msg] at hm

/-- C9 (witness): concrete application — `"TERMINATE"` content is accepted,
hence is a dict with non-empty content. -/
theorem termination_msg_nonmsg_witness :
    ∃ c : List Char, PyMessage.dict (some "TERMINATE".data) = .dict (some c) ∧ c ≠ [] :=
  termination_msg_nonmsg.2.2.2 (.dict (some "TERMINATE".data)) (by decide)

/-- C2: for every tokenizer assigning the empty string zero tokens (as the
fixed `tiktoken` profile of `shell.py` does) and every result string whose
token count exceeds the ceiling, the halving loop of `CommandExecutor.run`
terminates within `length + 1` iterations, the returned string is strictly
shorter than the input (each executed iteration keeps the first half of a
non-empty string), and the returned string's token count is at most the
ceiling. -/
theorem run_tokenBounding (enc : List Char → Nat) (maxTokens : Nat) (s : List Char)
    (hEmpty : enc [] = 0) (h : maxTokens < enc s) :
    ∃ r, truncateLoop enc maxTokens (s.length + 1) s = some r ∧
      enc r ≤ maxTokens ∧ r.length < s.length := by
  obtain ⟨r, hr⟩ := truncateLoop_total enc maxTokens hEmpty s
  refine ⟨r, hr, truncateLoop_tokenBound _ _ _ _ _ hr, ?_⟩
  have hc : ¬ enc s ≤ maxTokens := Nat.not_le.mpr h
  have h1 : truncateLoop enc maxTokens s.length (firstHalf s) = some r := by
    simpa only [truncateLoop, if_neg hc] using hr
  have h2 : r.length ≤ (firstHalf s).length :=
    (truncateLoop_prefixes _ _ _ _ _ h1).length_le
  have hs0 : s ≠ [] := by
    intro hnil; subst hnil; exact hc (by simp [hEmpty])
  have hlen : 0 < s.length := List.length_pos.mpr hs0
  have hhalf := firstHalf_length s
  omega

/-- C2 (witness): with token count = character count, ceiling 3 and a
10-character string, the loop terminates with a result of at most 3 tokens,
strictly shorter than the input. -/
theorem run_tokenBounding_witness :
    ∃ r, truncateLoop List.length 3 ("0123456789".data.length + 1) "0123456789".data = some r ∧
      r.length ≤ 3 ∧ r.length < "0123456789".data.length :=
  run_tokenBounding List.length 3 "0123456789".data rfl (by decide)

/-- C3: a subprocess failure (non-zero exit via `CalledProcessError`, or
`TimeoutExpired`) is always converted to a string result by
`CommandExecutor.exec` — the captured partial output when
`return_err_output` is set, the stringified error otherwise. `execModel` is
a total function, so no exception escapes the call boundary in the model. -/
theorem exec_error_conversion (ce : CommandExecutor) (p e : List Char) :
    ce.execModel (.calledProcessError p e) = (if ce.return_err_output then p else e) ∧
    ce.execModel (.timeoutExpired p e) = (if ce.return_err_output then p else e) ∧
    (ProcOutcome.calledProcessError p e).isFailure = true ∧
    (ProcOutcome.timeoutExpired p e).isFailure = true :=
  ⟨rfl, rfl, rfl, rfl⟩

/-- C7: `CommandExecutor.run` joins the command fragments with `;` and
prepends the configured base command (followed by a space) exactly when the
joined line does not already start with it; `runModel` executes the line
`assembleCommands` produces. -/
theorem run_commandAssembly (command : List Char) (args : List (List Char)) :
    (command.isPrefixOf (List.intercalate [';'] args) = true →
      assembleCommands command (.list args) = List.intercalate [';'] args) ∧
    (command.isPrefixOf (List.intercalate [';'] args) = false →
      assembleCommands command (.list args) =
        command ++ ' ' :: List.intercalate [';'] args) := by
  constructor <;> intro h <;> simp [assembleCommands, PyStrOrList.toList, h]

/-- C7 (witness): concrete applications — a fragment list already starting
with `kubectl` is left alone; one that does not gets `kubectl ` prepended. -/
theorem run_commandAssembly_witness :
    assembleCommands "kubectl".data (.list ["kubectl get pods".data]) =
      List.intercalate [';'] ["kubectl get pods".data] ∧
    assembleCommands "kubectl".data (.list ["get pods".data, "get svc".data]) =
      "kubectl".data ++ ' ' :: List.intercalate [';'] ["get pods".data, "get svc".data] :=
  ⟨(run_commandAssembly "kubectl".data ["kubectl get pods".data]).1 (by decide),
   (run_commandAssembly "kubectl".data ["get pods".data, "get svc".data]).2 (by decide)⟩

/-- C5: for every script (a single string, or a list of lines first joined
with newlines), `ScriptExecutor.run` replaces each single quote in the body
with quote-doublequote-quote-doublequote-quote, wraps the result in single
quotes, and the command line delegated to the command executor is the
configured interpreter, then ` -c `, then the single-quoted escaped body
(provided the interpreter name does not itself begin with a single quote,
in which case the startswith test of `assembleCommands` cannot fire). -/
theorem scriptRun_commandLine (interpreter : List Char) (code : PyStrOrList)
    (h : interpreter.head? ≠ some squote) :
    scriptExecutedLine interpreter code =
      interpreter ++ " -c ".data ++
        squote :: escapeSingleQuotes (scriptBody code) ++ [squote] := by
  have hjoin : List.intercalate [';'] (PyStrOrList.toList (.str (scriptQuotedArg code))) =
      scriptQuotedArg code := by
    simp [PyStrOrList.toList, List.intercalate]
  have hpre : ¬ (scriptCommand interpreter).isPrefixOf (scriptQuotedArg code) = true := by
    intro hp
    obtain ⟨t, ht⟩ := List.isPrefixOf_iff_prefix.mp hp
    cases hi : interpreter with
    | nil =>
      rw [hi] at ht
      simp only [scriptCommand, scriptQuotedArg, List.nil_append] at ht
      have hsp : ' ' = squote := by
        have := congrArg List.head? ht
        simp at this
        exact this
      simp [squote, Char.ofNat] at hsp
    | cons a as =>
      rw [hi] at ht
      simp only [scriptCommand, scriptQuotedArg, List.cons_append] at ht
      have ha : a = squote := by
        have := congrArg List.head? ht
        simp at this
        exact this
      rw [hi, ha] at h
      simp at h
  unfold scriptExecutedLine assembleCommands
  rw [hjoin, if_neg hpre]
  have hc : scriptCommand interpreter = interpreter ++ [' ', '-', 'c'] := rfl
  have hd : " -c ".data = [' ', '-', 'c', ' '] := rfl
  rw [hc, hd]
  simp [scriptQuotedArg, List.append_assoc]

/-- C5 (witness): a shell script produces the expected `sh -c '...'` command
line. -/
theorem scriptRun_commandLine_witness :
    scriptExecutedLine "sh".data (.list ["echo hi".data]) =
      "sh".data ++ " -c ".data ++
        squote :: escapeSingleQuotes (scriptBody (.list ["echo hi".data])) ++ [squote] :=
  scriptRun_commandLine "sh".data (.list ["echo hi".data]) (by decide)

/-- C6: in `generate`, a result string from which the regex extracts exactly
two yaml blocks yields a manifest equal to the two trimmed block bodies
joined by exactly one `---` separator line, plus a trailing newline; a
result with no yaml fence yields the single-character manifest `"\n"`,
which the code pipes to `kubectl apply -f -` without validation. -/
theorem generate_manifest_extraction (result b1 b2 : List Char) :
    (findYamlBlocks result = [b1, b2] →
      joinManifests result = pyStrip b1 ++ "\n---\n".data ++ pyStrip b2 ++ ['\n']) ∧
    (findYamlBlocks result = [] → joinManifests result = ['\n']) := by
  constructor <;> intro h <;>
    simp [joinManifests, h, List.intercalate, List.append_assoc]

/-- C6 (witness): concrete applications — a plan text with two fenced yaml
blocks produces the two trimmed bodies joined by one separator, and a text
with no fence produces `"\n"`. -/
theorem generate_manifest_extraction_witness :
    joinManifests "plan:\n```yaml\nkind: Pod\n```\nand\n```yaml\nkind: Service\n```\ndone".data =
      pyStrip "\nkind: Pod\n".data ++ "\n---\n".data ++ pyStrip "\nkind: Service\n".data ++ ['\n'] ∧
    joinManifests "no fences here".data = ['\n'] :=
  ⟨(generate_manifest_extraction
      "plan:\n```yaml\nkind: Pod\n```\nand\n```yaml\nkind: Service\n```\ndone".data
      "\nkind: Pod\n".data "\nkind: Service\n".data).1 (by decide),
   (generate_manifest_extraction "no fences here".data [] []).2 (by decide)⟩

/-- C10: whenever the tokenizer assigns the empty string zero tokens,
`CommandExecutor.run` returns a prefix of the raw output produced by `exec`
for the assembled command line: each truncation step keeps the first half
and never modifies retained characters. -/
theorem run_returns_prefix_of_exec (ce : CommandExecutor) (enc : List Char → Nat)
    (outcome : List Char → ProcOutcome) (args : PyStrOrList)
    (hEmpty : enc [] = 0) :
    ∃ r, ce.runModel enc outcome args = some r ∧
      r <+: ce.execModel (outcome (assembleCommands ce.command args)) := by
  obtain ⟨r, hr⟩ :=
    truncateLoop_total enc ce.max_tokens hEmpty
      (ce.execModel (outcome (assembleCommands ce.command args)))
  exact ⟨r, hr, truncateLoop_prefixes _ _ _ _ _ hr⟩

/-- C10 (witness): a concrete run whose result is a prefix of the raw exec
output. -/
theorem run_returns_prefix_of_exec_witness :
    ∃ r, CommandExecutor.runModel ⟨"kubectl".data, 3000, false, false⟩ List.length
        (fun _ => .success "pod-a Running".data) (.str "get pods".data) = some r ∧
      r <+: CommandExecutor.execModel ⟨"kubectl".data, 3000, false, false⟩
        ((fun _ => ProcOutcome.success "pod-a Running".data)
          (assembleCommands "kubectl".data (.str "get pods".data))) :=
  run_returns_prefix_of_exec ⟨"kubectl".data, 3000, false, false⟩ List.length
    (fun _ => .success "pod-a Running".data) (.str "get pods".data) rfl

/-- C8: when neither the `api_type` argument nor `OPENAI_API_TYPE` selects
Azure, `get_llm` returns the Azure client iff `AZURE_OPENAI_API_KEY`
differs from the empty string; an unset variable (`none`) differs from the
empty string, so the Azure client is selected whenever the variable is
unset, and the OpenAI client is returned only when the variable is set to
exactly the empty string. -/
theorem get_llm_azure_selection (api_type : List Char) (envType : Option (List Char))
    (h1 : api_type ≠ "azure".data) (h2 : envType ≠ some "azure".data) :
    (∀ envKey : Option (List Char),
      get_llm api_type envType envKey = .azureOpenAI ↔ envKey ≠ some []) ∧
    get_llm api_type envType none = .azureOpenAI ∧
    get_llm api_type envType (some []) = .openAI := by
  refine ⟨?_, ?_, ?_⟩
  · intro envKey
    by_cases hk : envKey = some []
    · subst hk
      simp [get_llm, h1, h2]
    · simp [get_llm, h1, h2, hk]
  · simp [get_llm, h1, h2]
  · simp [get_llm, h1, h2]

/-- C8 (witness): concrete application with empty `api_type` and unset
`OPENAI_API_TYPE`. -/
theorem get_llm_azure_selection_witness :
    (∀ envKey : Option (List Char),
      get_llm [] none envKey = .azureOpenAI ↔ envKey ≠ some []) ∧
    get_llm [] none none = .azureOpenAI ∧
    get_llm [] none (some []) = .openAI :=
  get_llm_azure_selection [] none (by decide) (by decide)

/-- C4: in the spec-modelled orchestration loop, if no agent response ever
triggers the termination detector, the loop stops after exactly the
configured maximum number of rounds — the transcript is precisely the
responses of rounds `0` to `maxRounds - 1` — rather than looping forever. -/
theorem orchestrator_round_ceiling (isTerm : List Char → Bool)
    (respond : Nat → List Char) (maxRounds : Nat)
    (hnoterm : ∀ i, isTerm (respond i) = false) :
    runTranscript isTerm respond maxRounds = (List.range maxRounds).map respond ∧
    (runTranscript isTerm respond maxRounds).length = maxRounds := by
  have key : ∀ (k start : Nat), orchestrate isTerm respond k start =
      (List.range k).map (fun i => respond (start + i)) := by
    intro k
    induction k with
    | zero => intro start; simp [orchestrate]
    | succ n ih =>
      intro start
      simp only [orchestrate, hnoterm start, Bool.false_eq_true, if_false]
      rw [ih (start + 1), List.range_succ_eq_map]
      simp only [List.map_cons, List.map_map, Nat.add_zero]
      refine congrArg₂ _ rfl ?_
      refine List.map_congr_left ?_
      intro i _
      show respond (start + 1 + i) = respond (start + (i + 1))
      exact congrArg respond (by omega)
  have hrun : runTranscript isTerm respond maxRounds = (List.range maxRounds).map respond := by
    rw [runTranscript, key maxRounds 0]
    exact List.map_congr_left fun i _ => congrArg respond (Nat.zero_add i)
  exact ⟨hrun, by rw [hrun]; simp⟩

/-- C4 (witness): with a detector that never fires, a 30-round ceiling
yields exactly the 30 accumulated responses. -/
theorem orchestrator_round_ceiling_witness :
    runTranscript (fun _ => false) (fun _ => "next step".data) 30 =
      (List.range 30).map (fun _ => "next step".data) ∧
    (runTranscript (fun _ => false) (fun _ => "next step".data) 30).length = 30 :=
  orchestrator_round_ceiling (fun _ => false) (fun _ => "next step".data) 30
    (fun _ => rfl)

end KubeAgent
